import Mathlib

/-!
Verification development for the NitiVista repository.

Shallow embedding of the pure computational content of:
  services/policy-engine/vector_store.py        (VectorStore)
  services/policy-engine/layout_classifier.py   (LayoutClassifier._detect_policy_type)
  services/policy-engine/ocr_engine.py          (OCREngine._extract_from_pdf)
  services/voice-system/whatsapp_client.py      (WhatsAppClient)
  validation/validate_performance_metrics.py    (PerformanceValidator.test_ocr_accuracy)
  FieldProjectRAG model/Codes/rag_model.py      (PolicyRAGSystem)

Modelling conventions:
  - Python strings are List Char; Python float literals are exact rationals;
    float expressions that feed a square root (vector normalisation, cosine
    similarity) are modelled over the reals with Real.sqrt.
  - Python's seed-randomised builtin hash for strings is an abstract
    parameter (pyhash : List Char -> Int).
  - Calls into external libraries (transformers QA pipeline, chromadb
    retrieval, PyMuPDF text layer, tesseract OCR, the wall clock) are inputs
    to the modelled functions.
  - Python dicts are association lists with unique keys.
  - while-loops that the source does not obviously bound get explicit fuel;
    a result of none means the fuel was exhausted.
-/

open Classical

/-! ## Python string primitives -/

/-- Python str.lower applied characterwise. -/
def pyLower (s : List Char) : List Char := s.map Char.toLower

/-- Helper for pyWords: cur is the current in-progress word, reversed. -/
def pyWordsAux : List Char → List Char → List (List Char)
  | cur, [] => if cur = [] then [] else [cur.reverse]
  | cur, c :: cs =>
    if c.isWhitespace then
      if cur = [] then pyWordsAux [] cs else cur.reverse :: pyWordsAux [] cs
    else pyWordsAux (c :: cur) cs

/-- Python str.split() with no argument: split on whitespace runs, dropping
empty pieces. -/
def pyWords (s : List Char) : List (List Char) := pyWordsAux [] s

/-- Python str.strip(): remove leading and trailing whitespace. -/
def pyStrip (s : List Char) : List Char :=
  ((s.dropWhile Char.isWhitespace).reverse.dropWhile Char.isWhitespace).reverse

/-- Whether sub is a prefix of s (helper for the Python in operator). -/
def listStartsWith : List Char → List Char → Bool
  | _, [] => true
  | [], _ :: _ => false
  | c :: cs, d :: ds => c = d && listStartsWith cs ds

/-- Python substring test: sub in s. -/
def containsSub : List Char → List Char → Bool
  | [], sub => sub.isEmpty
  | c :: cs, sub => listStartsWith (c :: cs) sub || containsSub cs sub

/-- Python index normalisation for slice bounds: a negative index counts from
the end of the string, and the result is clamped into [0, n]. -/
def pyAdjust (n : ℕ) (i : ℤ) : ℕ :=
  if i < 0 then (n + i).toNat else min i.toNat n

/-- Python slice s[a:b] on characters. -/
def pySlice (s : List Char) (a b : ℤ) : List Char :=
  (s.take (pyAdjust s.length b)).drop (pyAdjust s.length a)

/-- Python s.rfind(ch, a, b): the greatest index of ch inside the adjusted
half-open range, or -1 when there is none. -/
def pyRfind (s : List Char) (ch : Char) (a b : ℤ) : ℤ :=
  let lo := pyAdjust s.length a
  let hi := pyAdjust s.length b
  match ((List.range hi).filter fun i => lo ≤ i ∧ s.get? i = some ch).max? with
  | some m => (m : ℤ)
  | none => -1

/-- Python sep.join(parts). -/
def pyJoin (sep : List Char) : List (List Char) → List Char
  | [] => []
  | [x] => x
  | x :: y :: rest => x ++ sep ++ pyJoin sep (y :: rest)

/-- Insert or overwrite a key in a Python-dict association list, keeping the
position of an existing key (Python dicts preserve insertion order). -/
def dictInsert {β : Type} (k : String) (v : β) : List (String × β) → List (String × β)
  | [] => [(k, v)]
  | (k', v') :: rest => if k' = k then (k, v) :: rest else (k', v') :: dictInsert k v rest

/-! ## validate_performance_metrics.py : PerformanceValidator.test_ocr_accuracy -/

/-- The hardcoded OCR test cases (type, expected_accuracy) from
test_ocr_accuracy. -/
def ocr_test_cases : List (String × ℚ) :=
  [("clean_pdf", 99/100), ("scanned_300dpi", 98/100), ("handwritten_annotation", 95/100)]

/-- One row of the report produced by test_ocr_accuracy. -/
structure OcrCaseReport where
  caseType : String
  expected : ℚ
  actual : ℚ
  status : String
deriving DecidableEq

/-- PerformanceValidator.test_ocr_accuracy.  The source reads no document,
file or environment input: actual_accuracy is expected_accuracy - 0.01 and the
status is PASSED when actual_accuracy >= 0.95.  The function is therefore a
constant. -/
def test_ocr_accuracy : List OcrCaseReport :=
  ocr_test_cases.map fun tc =>
    let actual_accuracy := tc.2 - 1/100
    { caseType := tc.1, expected := tc.2, actual := actual_accuracy,
      status := if actual_accuracy ≥ 95/100 then "PASSED" else "FAILED" }

/-! ## layout_classifier.py : LayoutClassifier._detect_policy_type -/

def health_indicators : List (List Char) :=
  ["health insurance", "medical insurance", "hospitalization",
   "medical expenses", "doctor", "treatment", "medicine"].map String.toList

def life_indicators : List (List Char) :=
  ["life insurance", "life cover", "sum assured", "death benefit",
   "maturity benefit", "nominee"].map String.toList

def motor_indicators : List (List Char) :=
  ["motor insurance", "vehicle insurance", "car insurance",
   "bike insurance", "automobile", "registration number"].map String.toList

def travel_indicators : List (List Char) :=
  ["travel insurance", "trip insurance", "journey",
   "passport", "visa", "baggage", "flight"].map String.toList

/-- The scores dict of _detect_policy_type, in Python dict insertion order:
each score counts how many indicator phrases occur in the lowercased text. -/
def policy_scores (text : List Char) : List (String × ℕ) :=
  let text_lower := pyLower text
  [("health", health_indicators.countP fun k => containsSub text_lower k),
   ("life", life_indicators.countP fun k => containsSub text_lower k),
   ("motor", motor_indicators.countP fun k => containsSub text_lower k),
   ("travel", travel_indicators.countP fun k => containsSub text_lower k)]

/-- Python max(iterable, key=...): the first element attaining the maximal
score (a later element replaces the current best only when strictly greater).
-/
def pyMaxBy (d : String × ℕ) (l : List (String × ℕ)) : String × ℕ :=
  l.foldl (fun b p => if p.2 > b.2 then p else b) d

/-- LayoutClassifier._detect_policy_type. -/
def detect_policy_type (text : List Char) : String :=
  match policy_scores text with
  | [] => "health"
  | s :: rest =>
    let best := pyMaxBy s rest
    if best.2 = 0 then "health" else best.1

/-! ## vector_store.py : VectorStore._generate_embedding -/

/-- A text whose lowercased form splits into exactly one word: nonempty with
no whitespace characters. -/
def SingleWordText (t : List Char) : Prop :=
  t ≠ [] ∧ ∀ c ∈ t, c.isWhitespace = false

/-- The bag-of-words vector built by _generate_embedding before
normalisation: lowercase, whitespace-split, and for each of the first 50
words add 1/(i+1) to coordinate pyhash(word) % 384. -/
def rawEmbedding (pyhash : List Char → ℤ) (text : List Char) : Fin 384 → ℚ := fun j =>
  (((pyWords (pyLower text)).take 50).enum).foldl
    (fun acc p => if pyhash p.2 % 384 = (j : ℤ) then acc + 1 / (p.1 + 1 : ℚ) else acc) 0

/-- VectorStore._generate_embedding: the bag-of-words vector divided by its
Euclidean norm when that norm is positive. -/
noncomputable def generate_embedding (pyhash : List Char → ℤ) (text : List Char) :
    Fin 384 → ℝ :=
  let embedding : Fin 384 → ℝ := fun j => ((rawEmbedding pyhash text j : ℚ) : ℝ)
  let norm : ℝ := Real.sqrt (∑ j, embedding j ^ 2)
  if 0 < norm then fun j => embedding j / norm else embedding

/-! ## vector_store.py : VectorStore state, search_similar, delete_policy,
get_policy_chunks -/

/-- A value of self.chunks (keyed by chunk_id). -/
structure EmbChunk where
  chunk_id : String
  policy_id : String
  sectionName : String
  content : List Char

/-- An entry of self.embeddings[policy_id]. -/
structure EmbedData where
  chunk_id : String
  policy_id : String
  embedding : Fin 384 → ℝ
  sectionName : String
  content_length : ℕ

/-- An entry of the per-section search index. -/
structure IndexEntry where
  chunk_id : String
  content_length : ℕ

/-- The in-memory state of VectorStore: embeddings and index keyed by
policy_id, chunks keyed by chunk_id. -/
structure VStore where
  embeddings : List (String × List EmbedData)
  chunks : List (String × EmbChunk)
  index : List (String × List (String × List IndexEntry))

/-- One entry of the result list of search_similar. -/
structure SearchResult where
  chunk_id : String
  policy_id : String
  sectionName : String
  content : List Char
  similarity_score : ℝ
  content_length : ℕ

/-- VectorStore._cosine_similarity with numpy norms (sqrt of sum of
squares); 0 when either norm is zero. -/
noncomputable def cosine_similarity (v1 v2 : Fin 384 → ℝ) : ℝ :=
  let dot_product := ∑ j, v1 j * v2 j
  let norm1 := Real.sqrt (∑ j, v1 j ^ 2)
  let norm2 := Real.sqrt (∑ j, v2 j ^ 2)
  if norm1 = 0 ∨ norm2 = 0 then 0 else dot_product / (norm1 * norm2)

/-- The result list built by the loops of search_similar before sorting:
for each target policy present in self.embeddings, every embedding whose
cosine similarity with the query embedding exceeds 0.3 contributes a record
(content looked up in self.chunks with default ""). -/
noncomputable def search_results_raw (pyhash : List Char → ℤ) (st : VStore)
    (query : List Char) (policy_id : Option String) : List SearchResult :=
  let query_embedding := generate_embedding pyhash query
  let target_policies : List String := match policy_id with
    | some p => [p]
    | none => st.embeddings.map (·.1)
  target_policies.foldl
    (fun results policy =>
      match st.embeddings.lookup policy with
      | none => results
      | some eds =>
        results ++ eds.filterMap fun ed =>
          let similarity := cosine_similarity query_embedding ed.embedding
          if 3/10 < similarity then
            some { chunk_id := ed.chunk_id, policy_id := policy, sectionName := ed.sectionName,
                   content := ((st.chunks.lookup ed.chunk_id).map (·.content)).getD [],
                   similarity_score := similarity, content_length := ed.content_length }
          else none)
    []

/-- VectorStore.search_similar.  raised models whether the try-block raised
(the blanket except returns []); otherwise the collected results are sorted
by similarity_score descending and truncated to top_k. -/
noncomputable def search_similar (pyhash : List Char → ℤ) (st : VStore) (query : List Char)
    (policy_id : Option String) (top_k : ℕ) (raised : Bool) : List SearchResult :=
  if raised then []
  else
    (List.insertionSort (fun a b => b.similarity_score ≤ a.similarity_score)
      (search_results_raw pyhash st query policy_id)).take top_k

/-- VectorStore.delete_policy (the disk mirror is outside the model; on the
exception-free path the source always returns True). -/
def delete_policy (st : VStore) (policy_id : String) : VStore :=
  { embeddings := st.embeddings.filter fun e => ¬ e.1 = policy_id
    chunks := st.chunks.filter fun c => ¬ c.2.policy_id = policy_id
    index := st.index.filter fun e => ¬ e.1 = policy_id }

/-- VectorStore.get_policy_chunks: all chunks of a policy, optionally
restricted to one section. -/
def get_policy_chunks (st : VStore) (policy_id : String) (sect? : Option String) :
    List EmbChunk :=
  ((st.chunks.filter fun c =>
      c.2.policy_id = policy_id ∧ (sect? = none ∨ sect? = some c.2.sectionName)).map
    (·.2))

/-! ## ocr_engine.py : OCREngine._extract_from_pdf -/

/-- A PDF page as seen by _extract_from_pdf: the direct text layer returned
by page.get_text(), and the text/confidence that tesseract would produce on
the rendered page image. -/
structure PdfPage where
  direct : List Char
  ocr_text : List Char
  ocr_conf : ℚ

/-- One entry of pages_data.  used_ocr instruments whether the OCR branch
ran (an effect in the source). -/
structure PageData where
  page_number : ℕ
  text : List Char
  confidence : ℚ
  word_count : ℕ
  used_ocr : Bool

structure PdfResult where
  text : List Char
  pages : ℕ
  confidence : ℚ
  pages_data : List PageData
  word_count : ℕ

/-- The OCR-fallback condition of _extract_from_pdf:
if not text or len(text.strip()) < 100. -/
def page_needs_ocr (p : PdfPage) : Bool :=
  p.direct = ([] : List Char) ∨ (pyStrip p.direct).length < 100

/-- The page_data record built for one (page_num, page) pair of the loop of
_extract_from_pdf. -/
def page_data_of (pr : ℕ × PdfPage) : PageData :=
  let needs_ocr := page_needs_ocr pr.2
  let text := if needs_ocr then pr.2.ocr_text else pr.2.direct
  let confidence := if needs_ocr then pr.2.ocr_conf else 95/100
  { page_number := pr.1 + 1, text := text, confidence := confidence,
    word_count := (pyWords text).length, used_ocr := needs_ocr }

/-- OCREngine._extract_from_pdf.  none models the ZeroDivisionError the
source raises on a document with no pages (overall confidence divides by
len(pages_data)). -/
def extract_from_pdf (pages : List PdfPage) : Option PdfResult :=
  let pages_data := pages.enum.map page_data_of
  if pages_data.length = 0 then none
  else
    let full_text := pages_data.foldl (fun acc pd => acc ++ pd.text ++ ('\n' :: ['\n'])) []
    some { text := pyStrip full_text, pages := pages_data.length,
           confidence := (pages_data.map (·.confidence)).sum / pages_data.length,
           pages_data := pages_data,
           word_count := (pyWords full_text).length }

/-! ## whatsapp_client.py : WhatsAppClient -/

/-- A record appended to message_history by _record_message (the wall-clock
timestamp field is omitted from the model). -/
structure MsgRec where
  phone_number : String
  message_type : String
  content : List Char
  status : String

/-- The mutable state of WhatsAppClient relevant to rate limiting.  Dates
are abstract day numbers. -/
structure WState where
  messages_sent_today : ℕ
  last_reset_date : ℕ
  message_history : List (String × List MsgRec)

/-- self.rate_limit: messages per day. -/
def rate_limit : ℕ := 950

/-- WhatsAppClient._check_rate_limit: reset the daily counter on a date
change, then report whether the counter is below the limit.  today models
datetime.now().date(). -/
def check_rate_limit (today : ℕ) (st : WState) : Bool × WState :=
  let st' := if today ≠ st.last_reset_date
    then { st with messages_sent_today := 0, last_reset_date := today }
    else st
  (st'.messages_sent_today < rate_limit, st')

/-- WhatsAppClient._record_message: truncate long content, append to the
per-number history, keep only the last 100 records. -/
def record_message (phone : String) (mtype : String) (content : List Char)
    (st : WState) : WState :=
  let rec0 : MsgRec :=
    { phone_number := phone, message_type := mtype,
      content := if content.length > 100
        then content.take 100 ++ ('.' :: '.' :: ['.'])
        else content,
      status := "sent" }
  let hist := ((st.message_history.lookup phone).getD []) ++ [rec0]
  let hist' := if hist.length > 100 then hist.drop (hist.length - 100) else hist
  { st with message_history := dictInsert phone hist' st.message_history }

/-- WhatsAppClient.send_text on its exception-free path. -/
def send_text (today : ℕ) (phone : String) (message : List Char) (st : WState) :
    Bool × WState :=
  match check_rate_limit today st with
  | (false, st') => (false, st')
  | (true, st') =>
    let st'' := record_message phone "text" message st'
    (true, { st'' with messages_sent_today := st''.messages_sent_today + 1 })

/-- WhatsAppClient.send_voice on its exception-free path: rate limit first,
then the audio-file existence check. -/
def send_voice (today : ℕ) (phone : String) (audio_file_path : String)
    (file_exists : Bool) (st : WState) : Bool × WState :=
  match check_rate_limit today st with
  | (false, st') => (false, st')
  | (true, st') =>
    if !file_exists then (false, st')
    else
      let st'' := record_message phone "voice" audio_file_path.toList st'
      (true, { st'' with messages_sent_today := st''.messages_sent_today + 1 })

/-- One send call, with the date observed from the wall clock. -/
inductive WOp where
  | text (today : ℕ) (phone : String) (message : List Char)
  | voice (today : ℕ) (phone : String) (path : String) (file_exists : Bool)

def WOp.today : WOp → ℕ
  | .text d _ _ => d
  | .voice d _ _ _ => d

def wstep (st : WState) : WOp → Bool × WState
  | .text d p m => send_text d p m st
  | .voice d p path ex => send_voice d p path ex st

/-- The state built by WhatsAppClient.__init__: counter 0, today's date,
history loaded from disk. -/
def initWState (d : ℕ) (hist : List (String × List MsgRec)) : WState :=
  { messages_sent_today := 0, last_reset_date := d, message_history := hist }

/-- States reachable from a fresh client by send_text / send_voice calls. -/
inductive WReachable : WState → Prop where
  | init (d : ℕ) (hist : List (String × List MsgRec)) : WReachable (initWState d hist)
  | step (st : WState) (op : WOp) : WReachable st → WReachable (wstep st op).2

/-! ## rag_model.py : PolicyRAGSystem.answer_question and the fallback -/

/-- A retrieved context as produced by _retrieve_relevant_contexts (the
chromadb query is external, so contexts are inputs).  metadata is opaque. -/
structure QAContext where
  text : List Char
  metadata : String
deriving DecidableEq

/-- The best_answer record accumulated in answer_question. -/
structure QABest where
  answer : List Char
  confidence : ℚ
  source : String
  context : List Char

/-- The answer record returned by _generate_fallback_answer. -/
structure QAAnswer where
  answer : List Char
  confidence : ℚ
  source : String

/-- The response dict of answer_question (timestamp omitted). -/
structure QAResponse where
  answer : List Char
  confidence : ℚ
  source : String
  suggested_questions : List (List Char)

/-- PolicyRAGSystem._generate_fallback_answer on its exception-free path:
keyword matching of the lowercased question against fixed word groups, with
confidence 0.2 and source Fallback. -/
def generate_fallback_answer (question : List Char) (contexts : List QAContext) :
    QAAnswer :=
  let combined_context :=
    pyJoin (" ".toList) ((contexts.take 2).map fun ctx => ctx.text.take 200)
  let question_lower := pyLower question
  let answer :=
    if (["cover", "include", "what"].map String.toList).any
        (fun w => containsSub question_lower w) then
      ("Based on your policy document, the coverage includes: ").toList
        ++ combined_context.take 150 ++ ("...").toList
    else if (["exclude", "not cover"].map String.toList).any
        (fun w => containsSub question_lower w) then
      ("Your policy exclusions include: ").toList
        ++ combined_context.take 150 ++ ("...").toList
    else if (["claim", "how"].map String.toList).any
        (fun w => containsSub question_lower w) then
      ("For claims, please refer to your policy document or contact customer service.").toList
    else if (["premium", "cost", "price"].map String.toList).any
        (fun w => containsSub question_lower w) then
      ("Premium information can be found in your policy document.").toList
    else
      ("I found some relevant information in your policy, but please check the full document for complete details.").toList
  { answer := answer, confidence := 1/5, source := "Fallback" }

/-- PolicyRAGSystem._generate_follow_up_questions. -/
def generate_follow_up_questions (original_question : List Char) : List (List Char) :=
  let question_lower := pyLower original_question
  (if containsSub question_lower ("cover".toList) then
    [("What is not covered by my policy?").toList,
     ("How much coverage do I have?").toList,
     ("Can I add additional coverage?").toList]
  else if containsSub question_lower ("premium".toList)
      ∨ containsSub question_lower ("cost".toList) then
    [("When is my premium due?").toList,
     ("How can I pay my premium?").toList,
     ("What happens if I miss a payment?").toList]
  else if containsSub question_lower ("claim".toList) then
    [("What documents do I need for a claim?").toList,
     ("How long does claim processing take?").toList,
     ("Can I track my claim status?").toList]
  else
    [("What is my policy number?").toList,
     ("When does my policy expire?").toList,
     ("How do I contact customer service?").toList]).take 3

/-- The best-answer loop of answer_question: qa abstracts the transformers
QA pipeline, returning (answer, score) or none when the call raised or
returned nothing.  A later context replaces the best answer only when its
score is strictly greater. -/
def qaBestFold (qa : List Char → List Char → Option (List Char × ℚ))
    (question : List Char) (contexts : List QAContext) : Option QABest × ℚ :=
  contexts.foldl
    (fun acc ctx =>
      match qa question ctx.text with
      | none => acc
      | some (ans, score) =>
        if score > acc.2 then
          (some { answer := ans, confidence := score, source := ctx.metadata,
                  context := ctx.text }, score)
        else acc)
    (none, 0)

/-- The fixed response of answer_question when retrieval returns nothing. -/
def no_information_response : QAResponse :=
  { answer := ("I don\x27t have enough information to answer that question. Please upload your policy document first.").toList,
    confidence := 0, source := "None", suggested_questions := [] }

/-- PolicyRAGSystem.answer_question on its exception-free path, with
retrieved contexts and the QA pipeline as inputs. -/
def answer_question (qa : List Char → List Char → Option (List Char × ℚ))
    (contexts : List QAContext) (question : List Char)
    (confidence_threshold : ℚ) : QAResponse :=
  if contexts = [] then no_information_response
  else
    let best := qaBestFold qa question contexts
    let final : QAAnswer :=
      match best.1 with
      | none => generate_fallback_answer question contexts
      | some b =>
        if best.2 < confidence_threshold then generate_fallback_answer question contexts
        else { answer := b.answer, confidence := b.confidence, source := b.source }
    { answer := final.answer, confidence := final.confidence, source := final.source,
      suggested_questions := generate_follow_up_questions question }

/-! ## rag_model.py : PolicyRAGSystem._split_text_into_chunks -/

/-- One iteration's window of _split_text_into_chunks: the start and end
indices used for the slice, and the stripped chunk text (appended to the
output only when nonempty). -/
structure ChunkWindow where
  winStart : ℤ
  winEnd : ℤ
  chunk : List Char
deriving DecidableEq

/-- The window computation of one loop iteration: end = start + chunk_size,
pulled back to just after the last period in the window when that period
lies in the final 20 percent (the float comparison
sentence_end > start + chunk_size * 0.8 is exact for integer operands, so
0.8 is the exact rational 4/5). -/
def chunk_window (text : List Char) (chunk_size : ℕ) (start : ℤ) : ChunkWindow :=
  let end0 : ℤ := start + chunk_size
  let endF : ℤ :=
    if end0 < (text.length : ℤ) then
      let sentence_end : ℤ := pyRfind text '.' start end0
      if (sentence_end : ℚ) > (start : ℚ) + (chunk_size : ℚ) * 0.8 then sentence_end + 1
      else end0
    else end0
  { winStart := start, winEnd := endF, chunk := pyStrip (pySlice text start endF) }

/-- chunk_window with the 0.8 comparison cleared of denominators, for
kernel evaluation (Rat arithmetic does not reduce in the kernel). -/
def chunk_windowI (text : List Char) (chunk_size : ℕ) (start : ℤ) : ChunkWindow :=
  let end0 : ℤ := start + chunk_size
  let endF : ℤ :=
    if end0 < (text.length : ℤ) then
      let sentence_end : ℤ := pyRfind text '.' start end0
      if 5 * sentence_end > 5 * start + 4 * (chunk_size : ℤ) then sentence_end + 1
      else end0
    else end0
  { winStart := start, winEnd := endF, chunk := pyStrip (pySlice text start endF) }

/-- The while-loop of _split_text_into_chunks with explicit fuel.  Returns
(all scanned windows, the accumulated chunks list, the final start value);
none when the fuel runs out before the loop exits.  The break fires when
the advanced start reaches the end of the text or more than 1000 chunks
have been accumulated. -/
def split_chunks_loop (text : List Char) (chunk_size chunk_overlap : ℕ) :
    ℕ → ℤ → List ChunkWindow → List (List Char) →
    Option (List ChunkWindow × List (List Char) × ℤ)
  | 0, _, _, _ => none
  | fuel + 1, start, wins, chunks =>
    if start < (text.length : ℤ) then
      let w := chunk_window text chunk_size start
      let chunks' := if w.chunk = [] then chunks else chunks ++ [w.chunk]
      let start' := w.winEnd - chunk_overlap
      if (text.length : ℤ) ≤ start' ∨ chunks'.length > 1000 then
        some (wins ++ [w], chunks', start')
      else split_chunks_loop text chunk_size chunk_overlap fuel start' (wins ++ [w]) chunks'
    else some (wins, chunks, start)

/-- The fueled loop over chunk_windowI, for kernel evaluation. -/
def split_chunks_loopI (text : List Char) (chunk_size chunk_overlap : ℕ) :
    ℕ → ℤ → List ChunkWindow → List (List Char) →
    Option (List ChunkWindow × List (List Char) × ℤ)
  | 0, _, _, _ => none
  | fuel + 1, start, wins, chunks =>
    if start < (text.length : ℤ) then
      let w := chunk_windowI text chunk_size start
      let chunks' := if w.chunk = [] then chunks else chunks ++ [w.chunk]
      let start' := w.winEnd - chunk_overlap
      if (text.length : ℤ) ≤ start' ∨ chunks'.length > 1000 then
        some (wins ++ [w], chunks', start')
      else split_chunks_loopI text chunk_size chunk_overlap fuel start' (wins ++ [w]) chunks'
    else some (wins, chunks, start)

/-- PolicyRAGSystem._split_text_into_chunks: the chunks list of the loop
run from start 0. -/
def split_text_into_chunks (text : List Char) (chunk_size chunk_overlap fuel : ℕ) :
    Option (List (List Char)) :=
  (split_chunks_loop text chunk_size chunk_overlap fuel 0 [] []).map fun r => r.2.1

/-- Scanned windows chain: each window starts at the loop's current start,
and the next start is this window's end minus the overlap. -/
def ChainedFrom (chunk_overlap : ℕ) : ℤ → List ChunkWindow → Prop
  | _, [] => True
  | s, w :: rest => w.winStart = s ∧ ChainedFrom chunk_overlap (w.winEnd - chunk_overlap) rest

/-! ## Concrete example values used by witnesses -/

/-- A one-page document whose direct text layer is short, for witnesses. -/
def onePdfPage : PdfPage :=
  { direct := ("hi").toList, ocr_text := ("scanned").toList, ocr_conf := 4/5 }

/-- A small two-policy store, for witnesses. -/
def exampleStore : VStore :=
  { embeddings := [("p1", []), ("p2", [])]
    chunks := [("c1", { chunk_id := "c1", policy_id := "p1", sectionName := "s",
                        content := ("x").toList }),
               ("c2", { chunk_id := "c2", policy_id := "p2", sectionName := "s",
                        content := ("y").toList })]
    index := [("p1", []), ("p2", [])] }

/-! ## Theorems -/

/-- C2: the pass/fail output of test_ocr_accuracy is fabricated: it is a
constant determined by the hardcoded cases, each reported with actual
accuracy equal to its hardcoded expected accuracy minus 0.01, with status
PASSED exactly when that value is at least 0.95 — clean_pdf 0.98 PASSED,
scanned_300dpi 0.97 PASSED, handwritten_annotation 0.94 FAILED — with no
document, file or environment input anywhere. -/
theorem test_ocr_accuracy_fabricated :
    test_ocr_accuracy =
      [{ caseType := "clean_pdf", expected := 99/100, actual := 98/100, status := "PASSED" },
       { caseType := "scanned_300dpi", expected := 98/100, actual := 97/100, status := "PASSED" },
       { caseType := "handwritten_annotation", expected := 95/100, actual := 94/100,
         status := "FAILED" }] ∧
    ∀ r ∈ test_ocr_accuracy,
      r.actual = r.expected - 1/100 ∧ (r.status = "PASSED" ↔ r.actual ≥ 95/100) := by
  have h : test_ocr_accuracy =
      [{ caseType := "clean_pdf", expected := 99/100, actual := 98/100, status := "PASSED" },
       { caseType := "scanned_300dpi", expected := 98/100, actual := 97/100, status := "PASSED" },
       { caseType := "handwritten_annotation", expected := 95/100, actual := 94/100,
         status := "FAILED" }] := by
    simp only [test_ocr_accuracy, ocr_test_cases, List.map_cons, List.map_nil]
    norm_num
  refine ⟨h, ?_⟩
  rw [h]
  intro r hr
  simp only [List.mem_cons, List.not_mem_nil, or_false] at hr
  rcases hr with rfl | rfl | rfl
  · exact ⟨by norm_num, by norm_num⟩
  · exact ⟨by norm_num, by norm_num⟩
  · refine ⟨by norm_num, ?_⟩
    constructor
    · intro h'
      exact absurd h' (by decide)
    · intro h'
      exact absurd h' (by norm_num)

/-- C7: for every page processed by _extract_from_pdf, the OCR branch runs
exactly when the direct text layer is empty or its stripped length is below
100 characters; otherwise the direct text is kept with confidence 0.95; and
the overall confidence is the arithmetic mean of the per-page confidences. -/
theorem extract_from_pdf_spec (pages : List PdfPage) (hne : pages ≠ []) :
    ∃ r, extract_from_pdf pages = some r ∧
      r.pages_data.length = pages.length ∧
      (∀ i, i < pages.length →
        ∃ p pd, pages[i]? = some p ∧ r.pages_data[i]? = some pd ∧
          pd.used_ocr = page_needs_ocr p ∧
          (page_needs_ocr p = true → pd.text = p.ocr_text ∧ pd.confidence = p.ocr_conf) ∧
          (page_needs_ocr p = false → pd.text = p.direct ∧ pd.confidence = 95/100) ∧
          (page_needs_ocr p = true ↔ (p.direct = [] ∨ (pyStrip p.direct).length < 100))) ∧
      r.confidence = (r.pages_data.map (·.confidence)).sum / pages.length := by
  have hlen : (pages.enum.map page_data_of).length = pages.length := by simp
  have hcond : ¬ ((pages.enum.map page_data_of).length = 0) := by
    rw [hlen]
    simpa using hne
  have hex : extract_from_pdf pages = some
      { text := pyStrip ((pages.enum.map page_data_of).foldl
          (fun acc pd => acc ++ pd.text ++ ('\n' :: ['\n'])) [])
        pages := (pages.enum.map page_data_of).length
        confidence := ((pages.enum.map page_data_of).map (·.confidence)).sum /
          (pages.enum.map page_data_of).length
        pages_data := pages.enum.map page_data_of
        word_count := (pyWords ((pages.enum.map page_data_of).foldl
          (fun acc pd => acc ++ pd.text ++ ('\n' :: ['\n'])) [])).length } := by
    simp only [extract_from_pdf]
    rw [if_neg hcond]
  refine ⟨_, hex, ?_, ?_, ?_⟩
  · exact hlen
  · intro i hi
    obtain ⟨p, hp⟩ : ∃ p, pages[i]? = some p :=
      ⟨pages[i], List.getElem?_eq_getElem hi⟩
    refine ⟨p, page_data_of (i, p), hp, ?_, rfl, ?_, ?_, ?_⟩
    · rw [List.getElem?_map, List.getElem?_enum, hp]
      rfl
    · intro h
      simp [page_data_of, h]
    · intro h
      simp [page_data_of, h]
    · simp [page_needs_ocr]
  · show ((pages.enum.map page_data_of).map (·.confidence)).sum /
        ((pages.enum.map page_data_of).length : ℚ) = _
    rw [hlen]

/-- Witness for extract_from_pdf_spec at a concrete one-page document. -/
theorem extract_from_pdf_spec_witness :
    ∃ r, extract_from_pdf [onePdfPage] = some r ∧
      r.pages_data.length = ([onePdfPage] : List PdfPage).length ∧
      (∀ i, i < ([onePdfPage] : List PdfPage).length →
        ∃ p pd, ([onePdfPage] : List PdfPage)[i]? = some p ∧ r.pages_data[i]? = some pd ∧
          pd.used_ocr = page_needs_ocr p ∧
          (page_needs_ocr p = true → pd.text = p.ocr_text ∧ pd.confidence = p.ocr_conf) ∧
          (page_needs_ocr p = false → pd.text = p.direct ∧ pd.confidence = 95/100) ∧
          (page_needs_ocr p = true ↔ (p.direct = [] ∨ (pyStrip p.direct).length < 100))) ∧
      r.confidence = (r.pages_data.map (·.confidence)).sum /
        ([onePdfPage] : List PdfPage).length :=
  extract_from_pdf_spec [onePdfPage] (List.cons_ne_nil _ _)

/-- Lookup of another key is unchanged by deleting key p from a dict. -/
theorem lookup_filter_keys_ne {β : Type} (l : List (String × β)) (p q : String)
    (hq : ¬ q = p) : (l.filter fun e => ¬ e.1 = p).lookup q = l.lookup q := by
  induction l with
  | nil => rfl
  | cons e rest ih =>
    by_cases he : e.1 = p
    · have : (e :: rest).filter (fun e => ¬ e.1 = p) = rest.filter fun e => ¬ e.1 = p := by
        simp [List.filter_cons, he]
      rw [this, ih]
      rcases e with ⟨k, v⟩
      have : ¬ (q == k) = true := by
        simp only [beq_iff_eq]
        intro h
        exact hq (h.trans he)
      simp [List.lookup_cons, this]
    · have : (e :: rest).filter (fun e => ¬ e.1 = p) =
          e :: (rest.filter fun e => ¬ e.1 = p) := by
        simp [List.filter_cons, he]
      rw [this]
      rcases e with ⟨k, v⟩
      by_cases hqk : q = k
      · simp [List.lookup_cons, hqk]
      · have hb : (q == k) = false := by simp [hqk]
        simp only [List.lookup_cons, hb]
        exact ih

/-- Lookup of key p returns none after deleting key p from a dict. -/
theorem lookup_filter_keys_self {β : Type} (l : List (String × β)) (p : String) :
    (l.filter fun e => ¬ e.1 = p).lookup p = none := by
  induction l with
  | nil => rfl
  | cons e rest ih =>
    rcases e with ⟨k, v⟩
    by_cases he : k = p
    · simpa [List.filter_cons, he] using ih
    · have hne : ¬ (p == k) = true := by
        simp only [beq_iff_eq]
        intro h
        exact he h.symm
      simpa [List.filter_cons, he, List.lookup_cons, hne] using ih

/-- In a dict with distinct keys, filtering on a predicate over values turns
each binding's lookup into the filtered lookup. -/
theorem lookup_filter_pred {β : Type} (f : β → Bool) (l : List (String × β)) (cid : String)
    (hnd : (l.map Prod.fst).Nodup) (c : β) (hc : l.lookup cid = some c) :
    (l.filter fun e => f e.2).lookup cid = if f c then some c else none := by
  induction l with
  | nil => simp [List.lookup] at hc
  | cons e rest ih =>
    rcases e with ⟨k, v⟩
    simp only [List.map_cons, List.nodup_cons] at hnd
    by_cases hqk : cid = k
    · have hv : v = c := by
        have := hc
        simp [List.lookup_cons, hqk] at this
        exact this
      subst hv
      have hrest : rest.lookup cid = none := by
        rw [List.lookup_eq_none_iff]
        intro pr hpr
        simp only [bne_iff_ne, ne_eq]
        intro hk
        apply hnd.1
        have hmem := List.mem_map_of_mem Prod.fst hpr
        rwa [← hk, hqk] at hmem
      have hrestf : (rest.filter fun e => f e.2).lookup cid = none := by
        rw [List.lookup_eq_none_iff] at hrest ⊢
        intro pr hpr
        exact hrest pr (List.mem_of_mem_filter hpr)
      by_cases hf : f v
      · simp [List.filter_cons, hf, List.lookup_cons, hqk]
      · simp only [List.filter_cons, hf]
        rw [if_neg (by simp [hf])]
        simp [hrestf, hf]
    · have hb : (cid == k) = false := by simp [hqk]
      have hrest : rest.lookup cid = some c := by
        have := hc
        rw [List.lookup_cons, hb] at this
        exact this
      have := ih hnd.2 hrest
      by_cases hf : f v
      · simp only [List.filter_cons, hf, if_pos, List.lookup_cons, hb]
        exact this
      · simp only [List.filter_cons, hf]
        rw [if_neg (by simp [hf])]
        exact this

/-- C9: delete_policy removes exactly the embeddings entry, the index entry
and the chunks of the deleted policy; the entries of every other policy are
unchanged, and afterwards get_policy_chunks of the deleted policy is empty.
The key-distinctness hypothesis is the Python dict invariant. -/
theorem delete_policy_frame (st : VStore) (p : String)
    (hnd : (st.chunks.map Prod.fst).Nodup) :
    (delete_policy st p).embeddings.lookup p = none ∧
    (delete_policy st p).index.lookup p = none ∧
    (∀ q, q ≠ p → (delete_policy st p).embeddings.lookup q = st.embeddings.lookup q) ∧
    (∀ q, q ≠ p → (delete_policy st p).index.lookup q = st.index.lookup q) ∧
    (∀ cid c, st.chunks.lookup cid = some c →
      (delete_policy st p).chunks.lookup cid =
        if c.policy_id = p then none else some c) ∧
    (∀ e ∈ (delete_policy st p).chunks, e.2.policy_id ≠ p) ∧
    get_policy_chunks (delete_policy st p) p none = [] := by
  refine ⟨?_, ?_, ?_, ?_, ?_, ?_, ?_⟩
  · exact lookup_filter_keys_self st.embeddings p
  · exact lookup_filter_keys_self st.index p
  · intro q hq
    exact lookup_filter_keys_ne st.embeddings p q hq
  · intro q hq
    exact lookup_filter_keys_ne st.index p q hq
  · intro cid c hc
    have := lookup_filter_pred (fun c => ¬ c.policy_id = p) st.chunks cid hnd c hc
    simp only [delete_policy]
    rw [this]
    by_cases hcp : c.policy_id = p
    · rw [if_pos hcp, if_neg (by simp [hcp])]
    · rw [if_neg hcp, if_pos (by simp [hcp])]
  · intro e he
    simp only [delete_policy, List.mem_filter, decide_not] at he
    simpa using he.2
  · simp only [get_policy_chunks, delete_policy]
    rw [List.filter_filter]
    have : ∀ e ∈ st.chunks,
        ¬ ((e.2.policy_id = p ∧ ((none : Option String) = none ∨ none = some e.2.sectionName)) ∧
          ¬ e.2.policy_id = p) := by
      intro e _
      rintro ⟨⟨h1, _⟩, h2⟩
      exact h2 h1
    rw [List.filter_eq_nil_iff.2 (by
      intro a ha
      simpa using this a ha)]
    rfl

/-- Witness for delete_policy_frame at a concrete two-policy store. -/
theorem delete_policy_frame_witness :
    (delete_policy exampleStore "p1").embeddings.lookup "p1" = none ∧
    (delete_policy exampleStore "p1").index.lookup "p1" = none ∧
    (∀ q, q ≠ "p1" → (delete_policy exampleStore "p1").embeddings.lookup q =
      exampleStore.embeddings.lookup q) ∧
    (∀ q, q ≠ "p1" → (delete_policy exampleStore "p1").index.lookup q =
      exampleStore.index.lookup q) ∧
    (∀ cid c, exampleStore.chunks.lookup cid = some c →
      (delete_policy exampleStore "p1").chunks.lookup cid =
        if c.policy_id = "p1" then none else some c) ∧
    (∀ e ∈ (delete_policy exampleStore "p1").chunks, e.2.policy_id ≠ "p1") ∧
    get_policy_chunks (delete_policy exampleStore "p1") "p1" none = [] :=
  delete_policy_frame exampleStore "p1" (by simp [exampleStore])

/-- Python max with key: the result is one of the candidates. -/
theorem pyMaxBy_mem (d : String × ℕ) (l : List (String × ℕ)) :
    pyMaxBy d l ∈ d :: l := by
  induction l generalizing d with
  | nil => simp [pyMaxBy]
  | cons p rest ih =>
    show List.foldl _ _ _ ∈ _
    rw [List.foldl_cons]
    by_cases h : p.2 > d.2
    · rw [if_pos h]
      have h2 := ih p
      simp only [pyMaxBy] at h2
      exact List.mem_cons_of_mem d h2
    · rw [if_neg h]
      have h2 := ih d
      simp only [pyMaxBy] at h2
      rcases List.mem_cons.1 h2 with h3 | h3
      · rw [h3]
        exact List.mem_cons_self _ _
      · exact List.mem_cons_of_mem d (List.mem_cons_of_mem p h3)

/-- Python max with key: every candidate scores at most the result. -/
theorem pyMaxBy_le (d : String × ℕ) (l : List (String × ℕ)) :
    ∀ q ∈ d :: l, q.2 ≤ (pyMaxBy d l).2 := by
  induction l generalizing d with
  | nil =>
    intro q hq
    simp only [List.mem_singleton] at hq
    simp [hq, pyMaxBy]
  | cons p rest ih =>
    intro q hq
    simp only [pyMaxBy, List.foldl_cons]
    by_cases h : p.2 > d.2
    · rw [if_pos h]
      rcases List.mem_cons.1 hq with h3 | h3
      · calc q.2 = d.2 := by rw [h3]
          _ ≤ p.2 := le_of_lt h
          _ ≤ (pyMaxBy p rest).2 := ih p p (List.mem_cons_self _ _)
      · exact ih p q h3
    · rw [if_neg h]
      rcases List.mem_cons.1 hq with h3 | h3
      · rw [h3]
        exact ih d d (List.mem_cons_self _ _)
      · rcases List.mem_cons.1 h3 with h4 | h4
        · calc q.2 = p.2 := by rw [h4]
            _ ≤ d.2 := le_of_not_lt h
            _ ≤ (pyMaxBy d rest).2 := ih d d (List.mem_cons_self _ _)
        · exact ih d q (List.mem_cons_of_mem d h4)

/-- C6: _detect_policy_type scores the four policy types by counting which
hardcoded indicator phrases occur in the lowercased text, returns a type of
maximal score, and returns health when every score is zero. -/
theorem detect_policy_type_spec (text : List Char) :
    detect_policy_type text ∈ (["health", "life", "motor", "travel"] : List String) ∧
    (∃ sc, (detect_policy_type text, sc) ∈ policy_scores text ∧
      ∀ q ∈ policy_scores text, q.2 ≤ sc) ∧
    ((∀ q ∈ policy_scores text, q.2 = 0) → detect_policy_type text = "health") := by
  obtain ⟨h0, l0, m0, t0, hps⟩ : ∃ h0 l0 m0 t0, policy_scores text =
      [("health", h0), ("life", l0), ("motor", m0), ("travel", t0)] :=
    ⟨_, _, _, _, rfl⟩
  have hdet : detect_policy_type text =
      (let best := pyMaxBy ("health", h0) [("life", l0), ("motor", m0), ("travel", t0)]
       if best.2 = 0 then "health" else best.1) := by
    rw [detect_policy_type, hps]
  have hmem := pyMaxBy_mem ("health", h0) [("life", l0), ("motor", m0), ("travel", t0)]
  have hle := pyMaxBy_le ("health", h0) [("life", l0), ("motor", m0), ("travel", t0)]
  set best := pyMaxBy ("health", h0) [("life", l0), ("motor", m0), ("travel", t0)] with hbest
  by_cases hz : best.2 = 0
  · have hdet' : detect_policy_type text = "health" := by rw [hdet]; simp [hz]
    refine ⟨by rw [hdet']; simp, ⟨h0, ?_, ?_⟩, fun _ => hdet'⟩
    · have hh0 : h0 = 0 := by
        have := hle ("health", h0) (List.mem_cons_self _ _)
        omega
      rw [hdet', hps, hh0]
      simp
    · intro q hq
      have h1 := hle q (by rw [hps] at hq; exact hq)
      have hh0 : h0 ≤ best.2 := hle ("health", h0) (List.mem_cons_self _ _)
      omega
  · have hdet' : detect_policy_type text = best.1 := by rw [hdet]; simp [hz]
    refine ⟨?_, ⟨best.2, ?_, ?_⟩, ?_⟩
    · rw [hdet']
      rcases List.mem_cons.1 hmem with h3 | h3
      · rw [h3]; simp
      · simp only [List.mem_cons, List.not_mem_nil, or_false] at h3
        rcases h3 with h3 | h3 | h3 <;> rw [h3] <;> simp
    · rw [hdet', hps]
      simpa using hmem
    · intro q hq
      exact hle q (by rw [hps] at hq; exact hq)
    · intro hall
      exfalso
      apply hz
      have := hall (detect_policy_type text, best.2) (by
        rw [hdet', hps]
        simpa using hmem)
      exact this

/-- Witness for detect_policy_type_spec at a concrete text. -/
theorem detect_policy_type_spec_witness :
    detect_policy_type (("this is a car insurance paper").toList) ∈
      (["health", "life", "motor", "travel"] : List String) ∧
    (∃ sc, (detect_policy_type (("this is a car insurance paper").toList), sc) ∈
        policy_scores (("this is a car insurance paper").toList) ∧
      ∀ q ∈ policy_scores (("this is a car insurance paper").toList), q.2 ≤ sc) ∧
    ((∀ q ∈ policy_scores (("this is a car insurance paper").toList), q.2 = 0) →
      detect_policy_type (("this is a car insurance paper").toList) = "health") :=
  detect_policy_type_spec (("this is a car insurance paper").toList)

/-- send_text written with explicit projections of the rate-limit check. -/
theorem send_text_eq (d : ℕ) (p : String) (m : List Char) (st : WState) :
    send_text d p m st =
      if (check_rate_limit d st).1 then
        (true, { record_message p "text" m (check_rate_limit d st).2 with
                 messages_sent_today :=
                   (record_message p "text" m (check_rate_limit d st).2).messages_sent_today
                     + 1 })
      else (false, (check_rate_limit d st).2) := by
  rw [send_text]
  rcases hcr : check_rate_limit d st with ⟨b, st'⟩
  cases b <;> simp

/-- send_voice written with explicit projections of the rate-limit check. -/
theorem send_voice_eq (d : ℕ) (p path : String) (ex : Bool) (st : WState) :
    send_voice d p path ex st =
      if (check_rate_limit d st).1 then
        (if !ex then (false, (check_rate_limit d st).2)
         else (true, { record_message p "voice" path.toList (check_rate_limit d st).2 with
                 messages_sent_today :=
                   (record_message p "voice" path.toList
                     (check_rate_limit d st).2).messages_sent_today + 1 }))
      else (false, (check_rate_limit d st).2) := by
  rw [send_voice]
  rcases hcr : check_rate_limit d st with ⟨b, st'⟩
  cases b <;> simp

/-- record_message changes only the history. -/
theorem record_message_counter (phone mtype : String) (content : List Char) (st : WState) :
    (record_message phone mtype content st).messages_sent_today = st.messages_sent_today ∧
    (record_message phone mtype content st).last_reset_date = st.last_reset_date :=
  ⟨rfl, rfl⟩

/-- The state after the rate-limit check keeps the counter or zeroes it. -/
theorem check_rate_limit_counter (today : ℕ) (st : WState) :
    (check_rate_limit today st).2.messages_sent_today = 0 ∨
    (check_rate_limit today st).2.messages_sent_today = st.messages_sent_today := by
  by_cases hd : today ≠ st.last_reset_date
  · left
    simp [check_rate_limit, hd]
  · right
    simp [check_rate_limit, hd]

/-- The rate-limit check passes exactly when the post-check counter is below
the limit. -/
theorem check_rate_limit_fst (today : ℕ) (st : WState) :
    (check_rate_limit today st).1 = true ↔
      (check_rate_limit today st).2.messages_sent_today < rate_limit := by
  simp [check_rate_limit]

/-- One send never raises the counter above the daily limit. -/
theorem wstep_counter_le (st : WState) (op : WOp)
    (h : st.messages_sent_today ≤ rate_limit) :
    (wstep st op).2.messages_sent_today ≤ rate_limit := by
  have hch : ∀ d : ℕ, (check_rate_limit d st).2.messages_sent_today ≤ rate_limit := by
    intro d
    rcases check_rate_limit_counter d st with h1 | h1 <;> omega
  cases op with
  | text d p m =>
    show (send_text d p m st).2.messages_sent_today ≤ rate_limit
    rw [send_text_eq]
    by_cases hb : (check_rate_limit d st).1 = true
    · rw [if_pos hb]
      have := (check_rate_limit_fst d st).1 hb
      have hrec := record_message_counter p "text" m (check_rate_limit d st).2
      simp only []
      omega
    · rw [if_neg hb]
      exact hch d
  | voice d p path ex =>
    show (send_voice d p path ex st).2.messages_sent_today ≤ rate_limit
    rw [send_voice_eq]
    by_cases hb : (check_rate_limit d st).1 = true
    · rw [if_pos hb]
      cases ex with
      | false => simpa using hch d
      | true =>
        have := (check_rate_limit_fst d st).1 hb
        have hrec := record_message_counter p "voice" path.toList (check_rate_limit d st).2
        simp only [Bool.not_true, Bool.false_eq_true, if_false]
        omega
    · rw [if_neg hb]
      exact hch d

/-- Every reachable client state respects the daily limit. -/
theorem wreachable_counter_le (st : WState) (hst : WReachable st) :
    st.messages_sent_today ≤ rate_limit := by
  induction hst with
  | init d hist => exact Nat.zero_le _
  | step st' op _ ih => exact wstep_counter_le st' op ih

/-- C3: in every reachable WhatsAppClient state the daily counter never
exceeds the 950 rate limit; once the counter has reached 950, any further
send on the same date returns False and leaves the state (and so the
message history) unchanged; and a send dated differently from
last_reset_date behaves exactly as from the state with the counter reset to
0 and the date advanced. -/
theorem whatsapp_rate_limit (st : WState) (hst : WReachable st) :
    st.messages_sent_today ≤ rate_limit ∧
    (∀ op : WOp, st.messages_sent_today = rate_limit → op.today = st.last_reset_date →
      wstep st op = (false, st)) ∧
    (∀ op : WOp, op.today ≠ st.last_reset_date →
      wstep st op = wstep { st with messages_sent_today := 0, last_reset_date := op.today } op) := by
  refine ⟨wreachable_counter_le st hst, ?_, ?_⟩
  · intro op hc hd
    have hcr : ∀ d, d = st.last_reset_date → check_rate_limit d st = (false, st) := by
      intro d hdd
      simp [check_rate_limit, hdd, hc]
    cases op with
    | text d p m =>
      show send_text d p m st = (false, st)
      rw [send_text]
      rw [hcr d hd]
    | voice d p path ex =>
      show send_voice d p path ex st = (false, st)
      rw [send_voice]
      rw [hcr d hd]
  · intro op hd
    have hcr : check_rate_limit op.today st =
        check_rate_limit op.today
          { st with messages_sent_today := 0, last_reset_date := op.today } := by
      simp [check_rate_limit, hd]
    cases op with
    | text d p m =>
      show send_text d p m st = send_text d p m _
      rw [send_text, send_text]
      rw [show check_rate_limit d st =
        check_rate_limit d { st with messages_sent_today := 0, last_reset_date := d }
        from hcr]
      rfl
    | voice d p path ex =>
      show send_voice d p path ex st = send_voice d p path ex _
      rw [send_voice, send_voice]
      rw [show check_rate_limit d st =
        check_rate_limit d { st with messages_sent_today := 0, last_reset_date := d }
        from hcr]
      rfl

/-- Witness for whatsapp_rate_limit at the initial state of a fresh client. -/
theorem whatsapp_rate_limit_witness :
    (initWState 0 []).messages_sent_today ≤ rate_limit ∧
    (∀ op : WOp, (initWState 0 []).messages_sent_today = rate_limit →
      op.today = (initWState 0 []).last_reset_date →
      wstep (initWState 0 []) op = (false, initWState 0 [])) ∧
    (∀ op : WOp, op.today ≠ (initWState 0 []).last_reset_date →
      wstep (initWState 0 []) op =
        wstep { initWState 0 [] with messages_sent_today := 0, last_reset_date := op.today } op) :=
  whatsapp_rate_limit (initWState 0 []) (WReachable.init 0 [])

/-- C5: answer_question returns the fixed no-information answer with
confidence 0.0 and source None when no contexts were retrieved; and whenever
contexts exist but the best extractive-QA score stays below the default
confidence_threshold 0.3, it returns the keyword-based fallback: the answer
selected by matching the lowercased question against the word groups
[cover, include, what], [exclude, not cover], [claim, how],
[premium, cost, price], with confidence 0.2 and source Fallback. -/
theorem answer_question_fallback (qa : List Char → List Char → Option (List Char × ℚ))
    (contexts : List QAContext) (question : List Char) :
    (contexts = [] → answer_question qa contexts question (3/10) = no_information_response) ∧
    no_information_response.confidence = 0 ∧
    no_information_response.source = "None" ∧
    (contexts ≠ [] → (qaBestFold qa question contexts).2 < 3/10 →
      (answer_question qa contexts question (3/10)).confidence = 1/5 ∧
      (answer_question qa contexts question (3/10)).source = "Fallback" ∧
      (answer_question qa contexts question (3/10)).answer =
        (if (["cover", "include", "what"].map String.toList).any
            (fun w => containsSub (pyLower question) w) then
          ("Based on your policy document, the coverage includes: ").toList
            ++ (pyJoin (" ".toList)
                ((contexts.take 2).map fun ctx => ctx.text.take 200)).take 150
            ++ ("...").toList
        else if (["exclude", "not cover"].map String.toList).any
            (fun w => containsSub (pyLower question) w) then
          ("Your policy exclusions include: ").toList
            ++ (pyJoin (" ".toList)
                ((contexts.take 2).map fun ctx => ctx.text.take 200)).take 150
            ++ ("...").toList
        else if (["claim", "how"].map String.toList).any
            (fun w => containsSub (pyLower question) w) then
          ("For claims, please refer to your policy document or contact customer service.").toList
        else if (["premium", "cost", "price"].map String.toList).any
            (fun w => containsSub (pyLower question) w) then
          ("Premium information can be found in your policy document.").toList
        else
          ("I found some relevant information in your policy, but please check the full document for complete details.").toList)) := by
  refine ⟨?_, rfl, rfl, ?_⟩
  · intro h
    rw [answer_question, if_pos h]
  · intro hne hlt
    have hmain : answer_question qa contexts question (3/10) =
        { answer := (generate_fallback_answer question contexts).answer,
          confidence := (generate_fallback_answer question contexts).confidence,
          source := (generate_fallback_answer question contexts).source,
          suggested_questions := generate_follow_up_questions question } := by
      simp only [answer_question]
      rw [if_neg hne]
      rcases hbf : (qaBestFold qa question contexts).1 with _ | b
      · rfl
      · simp only []
        rw [if_pos hlt]
    rw [hmain]
    refine ⟨rfl, rfl, ?_⟩
    rw [generate_fallback_answer]

/-- Witness for answer_question_fallback at a concrete question and a
single retrieved context with the QA pipeline returning nothing. -/
theorem answer_question_fallback_witness :
    (([({ text := ("policy text").toList, metadata := "m" } : QAContext)] :
        List QAContext) = [] →
      answer_question (fun _ _ => none)
        [({ text := ("policy text").toList, metadata := "m" } : QAContext)]
        (("what is covered").toList) (3/10) = no_information_response) ∧
    no_information_response.confidence = 0 ∧
    no_information_response.source = "None" ∧
    (([({ text := ("policy text").toList, metadata := "m" } : QAContext)] :
        List QAContext) ≠ [] →
      (qaBestFold (fun _ _ => none) (("what is covered").toList)
        [({ text := ("policy text").toList, metadata := "m" } : QAContext)]).2 < 3/10 →
      (answer_question (fun _ _ => none)
        [({ text := ("policy text").toList, metadata := "m" } : QAContext)]
        (("what is covered").toList) (3/10)).confidence = 1/5 ∧
      (answer_question (fun _ _ => none)
        [({ text := ("policy text").toList, metadata := "m" } : QAContext)]
        (("what is covered").toList) (3/10)).source = "Fallback" ∧
      (answer_question (fun _ _ => none)
        [({ text := ("policy text").toList, metadata := "m" } : QAContext)]
        (("what is covered").toList) (3/10)).answer =
        (if (["cover", "include", "what"].map String.toList).any
            (fun w => containsSub (pyLower (("what is covered").toList)) w) then
          ("Based on your policy document, the coverage includes: ").toList
            ++ (pyJoin (" ".toList)
                ((([({ text := ("policy text").toList, metadata := "m" } : QAContext)] :
                  List QAContext).take 2).map fun ctx => ctx.text.take 200)).take 150
            ++ ("...").toList
        else if (["exclude", "not cover"].map String.toList).any
            (fun w => containsSub (pyLower (("what is covered").toList)) w) then
          ("Your policy exclusions include: ").toList
            ++ (pyJoin (" ".toList)
                ((([({ text := ("policy text").toList, metadata := "m" } : QAContext)] :
                  List QAContext).take 2).map fun ctx => ctx.text.take 200)).take 150
            ++ ("...").toList
        else if (["claim", "how"].map String.toList).any
            (fun w => containsSub (pyLower (("what is covered").toList)) w) then
          ("For claims, please refer to your policy document or contact customer service.").toList
        else if (["premium", "cost", "price"].map String.toList).any
            (fun w => containsSub (pyLower (("what is covered").toList)) w) then
          ("Premium information can be found in your policy document.").toList
        else
          ("I found some relevant information in your policy, but please check the full document for complete details.").toList)) :=
  answer_question_fallback (fun _ _ => none)
    [({ text := ("policy text").toList, metadata := "m" } : QAContext)]
    (("what is covered").toList)

/-- pyWordsAux on whitespace-free input returns one word: the accumulator
followed by the rest. -/
theorem pyWordsAux_no_ws (l : List Char) (cur : List Char)
    (h : ∀ c ∈ l, c.isWhitespace = false) :
    pyWordsAux cur l = if cur.reverse ++ l = [] then [] else [cur.reverse ++ l] := by
  induction l generalizing cur with
  | nil =>
    simp only [pyWordsAux, List.append_nil]
    by_cases hc : cur = []
    · simp [hc]
    · rw [if_neg hc, if_neg (by simpa using hc)]
  | cons c cs ih =>
    have hc : c.isWhitespace = false := h c (List.mem_cons_self _ _)
    simp only [pyWordsAux, hc, Bool.false_eq_true, if_false]
    rw [ih (c :: cur) (fun d hd => h d (List.mem_cons_of_mem c hd))]
    have heq : (c :: cur).reverse ++ cs = cur.reverse ++ (c :: cs) := by
      simp [List.reverse_cons, List.append_assoc]
    rw [heq]

/-- A single-word text splits into exactly itself. -/
theorem pyWords_single (w : List Char) (hw : SingleWordText w) : pyWords w = [w] := by
  rw [pyWords, pyWordsAux_no_ws w [] hw.2]
  simp [hw.1]

/-- The raw bag-of-words vector of a text that splits into a single word is
the indicator of bucket pyhash(word) % 384. -/
theorem rawEmbedding_single (pyhash : List Char → ℤ) (t : List Char)
    (ht : pyWords (pyLower t) = [pyLower t]) :
    rawEmbedding pyhash t = fun j : Fin 384 =>
      if pyhash (pyLower t) % 384 = (j : ℤ) then (1 : ℚ) else 0 := by
  funext j
  simp only [rawEmbedding, ht]
  rw [show (([pyLower t] : List (List Char)).take 50) = [pyLower t] from rfl]
  rw [show ([pyLower t] : List (List Char)).enum = [(0, pyLower t)] from rfl]
  rw [List.foldl_cons, List.foldl_nil]
  split <;> norm_num

/-- Texts with equal raw vectors get equal normalised embeddings. -/
theorem generate_embedding_congr (pyhash : List Char → ℤ) (t1 t2 : List Char)
    (h : rawEmbedding pyhash t1 = rawEmbedding pyhash t2) :
    generate_embedding pyhash t1 = generate_embedding pyhash t2 := by
  simp only [generate_embedding, h]

/-- Two single-word texts whose word hashes agree modulo 384 receive the
same embedding. -/
theorem embedding_collision_of_congruent (pyhash : List Char → ℤ) (t1 t2 : List Char)
    (h1 : pyWords (pyLower t1) = [pyLower t1])
    (h2 : pyWords (pyLower t2) = [pyLower t2])
    (hcong : pyhash (pyLower t1) % 384 = pyhash (pyLower t2) % 384) :
    generate_embedding pyhash t1 = generate_embedding pyhash t2 := by
  apply generate_embedding_congr
  rw [rawEmbedding_single pyhash t1 h1, rawEmbedding_single pyhash t2 h2, hcong]

/-- C1: _generate_embedding hashes words into 384 frequency buckets, so for
every choice of the (seed-randomised) Python string hash there are two
distinct single-word texts whose word hashes are congruent modulo 384 and
which receive the same embedding vector: the map is not injective. -/
theorem generate_embedding_not_injective (pyhash : List Char → ℤ) :
    ∃ t1 t2 : List Char, t1 ≠ t2 ∧ SingleWordText t1 ∧ SingleWordText t2 ∧
      pyhash (pyLower t1) % 384 = pyhash (pyLower t2) % 384 ∧
      generate_embedding pyhash t1 = generate_embedding pyhash t2 ∧
      ¬ Function.Injective (generate_embedding pyhash) := by
  have hmod : ∀ w : List Char, (pyhash w % 384).toNat < 384 := by
    intro w
    have hn1 : (0 : ℤ) ≤ pyhash w % 384 := Int.emod_nonneg _ (by norm_num)
    have hn2 : pyhash w % 384 < 384 := Int.emod_lt_of_pos _ (by norm_num)
    omega
  obtain ⟨a, b, hab, hfab⟩ := Fintype.exists_ne_map_eq_of_card_lt
    (fun k : Fin 385 =>
      (⟨(pyhash (List.replicate (k.val + 1) 'a') % 384).toNat, hmod _⟩ : Fin 384))
    (by rw [Fintype.card_fin, Fintype.card_fin]; omega)
  have hlower : ∀ n : ℕ, pyLower (List.replicate n 'a') = List.replicate n 'a' := by
    intro n
    simp only [pyLower, List.map_replicate]
    rw [show Char.toLower 'a' = 'a' from rfl]
  have hsw : ∀ n : ℕ, SingleWordText (List.replicate (n + 1) 'a') := by
    intro n
    refine ⟨by simp, ?_⟩
    intro c hc
    rw [List.eq_of_mem_replicate hc]
    decide
  have hne : List.replicate (a.val + 1) 'a' ≠ List.replicate (b.val + 1) 'a' := by
    intro h
    apply hab
    have hl := congrArg List.length h
    simp only [List.length_replicate] at hl
    exact Fin.ext (by omega)
  have hcong : pyhash (pyLower (List.replicate (a.val + 1) 'a')) % 384 =
      pyhash (pyLower (List.replicate (b.val + 1) 'a')) % 384 := by
    rw [hlower, hlower]
    have hv := congrArg Fin.val hfab
    simp only [] at hv
    have hn1 : (0 : ℤ) ≤ pyhash (List.replicate (a.val + 1) 'a') % 384 :=
      Int.emod_nonneg _ (by norm_num)
    have hn2 : (0 : ℤ) ≤ pyhash (List.replicate (b.val + 1) 'a') % 384 :=
      Int.emod_nonneg _ (by norm_num)
    omega
  have hwords : ∀ n : ℕ, pyWords (pyLower (List.replicate (n + 1) 'a')) =
      [pyLower (List.replicate (n + 1) 'a')] := by
    intro n
    rw [hlower]
    exact pyWords_single _ (hsw n)
  have hemb := embedding_collision_of_congruent pyhash
    (List.replicate (a.val + 1) 'a') (List.replicate (b.val + 1) 'a')
    (hwords a.val) (hwords b.val) hcong
  refine ⟨_, _, hne, hsw a.val, hsw b.val, hcong, hemb, ?_⟩
  intro hinj
  exact hne (hinj hemb)

/-- Witness for generate_embedding_not_injective at a concrete hash
function. -/
theorem generate_embedding_not_injective_witness :
    ∃ t1 t2 : List Char, t1 ≠ t2 ∧ SingleWordText t1 ∧ SingleWordText t2 ∧
      (fun _ : List Char => (0 : ℤ)) (pyLower t1) % 384 =
        (fun _ : List Char => (0 : ℤ)) (pyLower t2) % 384 ∧
      generate_embedding (fun _ => 0) t1 = generate_embedding (fun _ => 0) t2 ∧
      ¬ Function.Injective (generate_embedding (fun _ => 0)) :=
  generate_embedding_not_injective (fun _ => 0)

/-- Every record collected by the search loops has similarity above the 0.3
threshold. -/
theorem search_results_raw_sim (pyhash : List Char → ℤ) (st : VStore)
    (query : List Char) (pid : Option String) :
    ∀ r ∈ search_results_raw pyhash st query pid, 3/10 < r.similarity_score := by
  have key : ∀ (tps : List String) (acc : List SearchResult),
      (∀ r ∈ acc, 3/10 < r.similarity_score) →
      ∀ r ∈ tps.foldl
        (fun results policy =>
          match st.embeddings.lookup policy with
          | none => results
          | some eds =>
            results ++ eds.filterMap fun ed =>
              let similarity := cosine_similarity (generate_embedding pyhash query)
                ed.embedding
              if 3/10 < similarity then
                some { chunk_id := ed.chunk_id, policy_id := policy,
                       sectionName := ed.sectionName,
                       content := ((st.chunks.lookup ed.chunk_id).map (·.content)).getD [],
                       similarity_score := similarity,
                       content_length := ed.content_length }
              else none) acc,
        3/10 < r.similarity_score := by
    intro tps
    induction tps with
    | nil => intro acc hacc r hr; exact hacc r hr
    | cons tp tps ih =>
      intro acc hacc r hr
      rw [List.foldl_cons] at hr
      rcases hlk : st.embeddings.lookup tp with _ | eds
      · rw [hlk] at hr
        exact ih acc hacc r hr
      · rw [hlk] at hr
        refine ih _ ?_ r hr
        intro r' hr'
        rcases List.mem_append.1 hr' with h1 | h1
        · exact hacc r' h1
        · obtain ⟨ed, _, hed⟩ := List.mem_filterMap.1 h1
          by_cases hs : 3/10 < cosine_similarity (generate_embedding pyhash query)
              ed.embedding
          · rw [if_pos hs] at hed
            cases hed
            exact hs
          · rw [if_neg hs] at hed
            cases hed
  intro r hr
  simp only [search_results_raw] at hr
  exact key _ [] (by simp) r hr

/-- C8: search_similar returns at most top_k results, every result has
cosine similarity with the query embedding strictly above 0.3, the results
are sorted in non-increasing order of similarity_score, and when the body
raised the function returns the empty list. -/
theorem search_similar_spec (pyhash : List Char → ℤ) (st : VStore) (query : List Char)
    (pid : Option String) (top_k : ℕ) (raised : Bool) :
    (search_similar pyhash st query pid top_k raised).length ≤ top_k ∧
    (∀ r ∈ search_similar pyhash st query pid top_k raised, 3/10 < r.similarity_score) ∧
    List.Sorted (fun a b => b.similarity_score ≤ a.similarity_score)
      (search_similar pyhash st query pid top_k raised) ∧
    (raised = true → search_similar pyhash st query pid top_k raised = []) := by
  haveI hTot : IsTotal SearchResult
      (fun a b => b.similarity_score ≤ a.similarity_score) :=
    ⟨fun a b => le_total _ _⟩
  haveI hTr : IsTrans SearchResult
      (fun a b => b.similarity_score ≤ a.similarity_score) :=
    ⟨fun _ _ _ h1 h2 => le_trans h2 h1⟩
  cases raised with
  | true =>
    refine ⟨?_, ?_, ?_, ?_⟩ <;> simp [search_similar]
  | false =>
    have hss : search_similar pyhash st query pid top_k false =
        (List.insertionSort (fun a b => b.similarity_score ≤ a.similarity_score)
          (search_results_raw pyhash st query pid)).take top_k := by
      simp [search_similar]
    refine ⟨?_, ?_, ?_, ?_⟩
    · rw [hss]
      exact List.length_take_le _ _
    · intro r hr
      rw [hss] at hr
      have hr2 := (List.take_sublist _ _).subset hr
      have hr3 := (List.perm_insertionSort
        (fun a b => b.similarity_score ≤ a.similarity_score)
        (search_results_raw pyhash st query pid)).subset hr2
      exact search_results_raw_sim pyhash st query pid r hr3
    · rw [hss]
      exact List.Pairwise.sublist (List.take_sublist _ _)
        (List.sorted_insertionSort _ _)
    · intro h
      cases h

/-- Witness for search_similar_spec at a concrete store and query. -/
theorem search_similar_spec_witness :
    (search_similar (fun _ => 0) exampleStore (("q").toList) none 5 false).length ≤ 5 ∧
    (∀ r ∈ search_similar (fun _ => 0) exampleStore (("q").toList) none 5 false,
      3/10 < r.similarity_score) ∧
    List.Sorted (fun a b => b.similarity_score ≤ a.similarity_score)
      (search_similar (fun _ => 0) exampleStore (("q").toList) none 5 false) ∧
    (false = true →
      search_similar (fun _ => 0) exampleStore (("q").toList) none 5 false = []) :=
  search_similar_spec (fun _ => 0) exampleStore (("q").toList) none 5 false

/-- The float comparison of the sentence-boundary rule agrees with its
denominator-cleared integer form. -/
theorem sentence_break_iff (se s : ℤ) (c : ℕ) :
    ((se : ℚ) > (s : ℚ) + (c : ℚ) * 0.8) ↔ (5 * se > 5 * s + 4 * (c : ℤ)) := by
  rw [show (0.8 : ℚ) = 4/5 by norm_num]
  constructor
  · intro h
    have h5 : (5 : ℚ) * se > 5 * s + 4 * c := by linarith
    exact_mod_cast h5
  · intro h
    have h5 : (5 : ℚ) * se > 5 * s + 4 * c := by exact_mod_cast h
    linarith

/-- chunk_window and its kernel-evaluable twin agree. -/
theorem chunk_window_eqI (text : List Char) (c : ℕ) (s : ℤ) :
    chunk_window text c s = chunk_windowI text c s := by
  have hend : (if (s + (c : ℤ)) < (text.length : ℤ) then
        (if (pyRfind text '.' s (s + c) : ℚ) > (s : ℚ) + (c : ℚ) * 0.8 then
          pyRfind text '.' s (s + c) + 1
        else s + c)
      else s + c) =
      (if (s + (c : ℤ)) < (text.length : ℤ) then
        (if 5 * pyRfind text '.' s (s + c) > 5 * s + 4 * (c : ℤ) then
          pyRfind text '.' s (s + c) + 1
        else s + c)
      else s + c) :=
    if_congr Iff.rfl (if_congr (sentence_break_iff _ s c) rfl rfl) rfl
  simp only [chunk_window, chunk_windowI]
  rw [hend]

/-- The two fueled loops agree. -/
theorem split_chunks_loop_eqI (text : List Char) (c o : ℕ) : ∀ (fuel : ℕ) (s : ℤ)
    (wins : List ChunkWindow) (chunks : List (List Char)),
    split_chunks_loop text c o fuel s wins chunks =
      split_chunks_loopI text c o fuel s wins chunks := by
  intro fuel
  induction fuel with
  | zero => intro s wins chunks; rfl
  | succ n ih =>
    intro s wins chunks
    simp only [split_chunks_loop, split_chunks_loopI, chunk_window_eqI, ih]

/-- One stuck iteration on the input where the loop diverges: the window is
all whitespace, so no chunk is appended and start does not advance. -/
theorem split_chunks_loopI_stuck (n : ℕ) (wins : List ChunkWindow) :
    split_chunks_loopI ((" x").toList) 1 1 (n + 1) 0 wins [] =
      split_chunks_loopI ((" x").toList) 1 1 n 0
        (wins ++ [{ winStart := 0, winEnd := 1, chunk := [] }]) [] := by
  have hw : chunk_windowI ((" x").toList) 1 0 =
      { winStart := 0, winEnd := 1, chunk := [] } := by decide
  have hlt : ((0 : ℤ) < ((" x").toList.length : ℤ)) := by decide
  have hbreak : ¬ ((((" x").toList.length : ℤ)) ≤ (1 : ℤ) - ((1 : ℕ) : ℤ) ∨
      ([] : List (List Char)).length > 1000) := by decide
  simp only [split_chunks_loopI, hw, if_pos hlt]
  norm_num

/-- C10: the claim that _split_text_into_chunks always terminates is wrong:
on the two-character text " x" (a space then a letter) with chunk_size 1 and
chunk_overlap 1, the window [0,1) strips to the empty string, so no chunk is
ever appended, start stays 0, and the safety break (start past the end, or
more than 1000 chunks) never fires: for every amount of fuel the loop is
still running — the while loop of the source diverges even though its
comment says the check prevents infinite loops. -/
theorem split_text_into_chunks_diverges :
    ∀ fuel : ℕ, split_text_into_chunks ((" x").toList) 1 1 fuel = none := by
  have hloop : ∀ (fuel : ℕ) (wins : List ChunkWindow),
      split_chunks_loopI ((" x").toList) 1 1 fuel 0 wins [] = none := by
    intro fuel
    induction fuel with
    | zero => intro wins; rfl
    | succ n ih =>
      intro wins
      rw [split_chunks_loopI_stuck]
      exact ih _
  intro fuel
  rw [split_text_into_chunks, split_chunks_loop_eqI, hloop fuel []]
  rfl

/-- Witness: at fuel 5 the diverging run is still unfinished. -/
theorem split_text_into_chunks_diverges_witness :
    split_text_into_chunks ((" x").toList) 1 1 5 = none :=
  split_text_into_chunks_diverges 5

/-- C4 counterexample: on the text "ab   cd" with chunk_size 3 and
chunk_overlap 1 the loop terminates with chunks ["ab", "cd", "d"], scanned
windows [0,3), [2,5), [4,7), [6,9), where the all-blank window [2,5) is
dropped; among the returned chunks, the chunk "cd" from window [4,7) follows
"ab" from window [0,3), but its start 4 is not 3 - 1: consecutive returned
chunks need not overlap as claimed, and position 3 of the text is covered by
no returned chunk's window, so the returned windows do not cover the text. -/
theorem split_text_into_chunks_claim_fails :
    split_chunks_loop (("ab   cd").toList) 3 1 20 0 [] [] =
      some ([{ winStart := 0, winEnd := 3, chunk := ("ab").toList },
             { winStart := 2, winEnd := 5, chunk := [] },
             { winStart := 4, winEnd := 7, chunk := ("cd").toList },
             { winStart := 6, winEnd := 9, chunk := ("d").toList }],
            ([("ab").toList, ("cd").toList, ("d").toList], 8)) ∧
    split_text_into_chunks (("ab   cd").toList) 3 1 20 =
      some [("ab").toList, ("cd").toList, ("d").toList] ∧
    (List.filter (fun w : ChunkWindow => ¬ w.chunk = [])
        ([{ winStart := 0, winEnd := 3, chunk := ("ab").toList },
          { winStart := 2, winEnd := 5, chunk := [] },
          { winStart := 4, winEnd := 7, chunk := ("cd").toList },
          { winStart := 6, winEnd := 9, chunk := ("d").toList }] : List ChunkWindow)) =
      ([{ winStart := 0, winEnd := 3, chunk := ("ab").toList },
        { winStart := 4, winEnd := 7, chunk := ("cd").toList },
        { winStart := 6, winEnd := 9, chunk := ("d").toList }] : List ChunkWindow) ∧
    ¬ ((4 : ℤ) = 3 - ((1 : ℕ) : ℤ)) ∧
    ¬ (∃ w ∈ ([{ winStart := 0, winEnd := 3, chunk := ("ab").toList },
               { winStart := 4, winEnd := 7, chunk := ("cd").toList },
               { winStart := 6, winEnd := 9, chunk := ("d").toList }] : List ChunkWindow),
        w.winStart ≤ (3 : ℤ) ∧ (3 : ℤ) < w.winEnd) := by
  refine ⟨?_, ?_, by decide, by decide, by decide⟩
  · rw [split_chunks_loop_eqI]
    decide
  · rw [split_text_into_chunks, split_chunks_loop_eqI]
    decide

/-- Adjusted slice bounds stay within the string. -/
theorem pyAdjust_le (n : ℕ) (i : ℤ) : pyAdjust n i ≤ n := by
  unfold pyAdjust
  split <;> omega

/-- A nonnegative index is only clamped downwards. -/
theorem pyAdjust_le_self (n : ℕ) (i : ℤ) (h : 0 ≤ i) : (pyAdjust n i : ℤ) ≤ i := by
  unfold pyAdjust
  rw [if_neg (not_lt.2 h)]
  omega

/-- The length of a Python slice is the difference of its adjusted bounds. -/
theorem pySlice_length (s : List Char) (a b : ℤ) :
    (pySlice s a b).length = pyAdjust s.length b - pyAdjust s.length a := by
  have hb := pyAdjust_le s.length b
  simp only [pySlice, List.length_drop, List.length_take]
  omega

/-- Stripping only shortens a string. -/
theorem pyStrip_length_le (l : List Char) : (pyStrip l).length ≤ l.length := by
  simp only [pyStrip, List.length_reverse]
  calc ((l.dropWhile Char.isWhitespace).reverse.dropWhile Char.isWhitespace).length
      ≤ (l.dropWhile Char.isWhitespace).reverse.length :=
        (List.dropWhile_sublist _).length_le
    _ = (l.dropWhile Char.isWhitespace).length := List.length_reverse _
    _ ≤ l.length := (List.dropWhile_sublist _).length_le

/-- rfind either fails or returns an index inside the adjusted range. -/
theorem pyRfind_cases (s : List Char) (ch : Char) (a b : ℤ) :
    pyRfind s ch a b = -1 ∨
    (0 ≤ pyRfind s ch a b ∧ pyRfind s ch a b < (pyAdjust s.length b : ℤ) ∧
      pyAdjust s.length a < pyAdjust s.length b) := by
  simp only [pyRfind]
  rcases hmax : ((List.range (pyAdjust s.length b)).filter
      fun i => pyAdjust s.length a ≤ i ∧ s.get? i = some ch).max? with _ | m
  · left
    rfl
  · right
    show (0 : ℤ) ≤ (m : ℤ) ∧ ((m : ℤ) < (pyAdjust s.length b : ℤ) ∧
      pyAdjust s.length a < pyAdjust s.length b)
    have hm : m ∈ (List.range (pyAdjust s.length b)).filter
        fun i => pyAdjust s.length a ≤ i ∧ s.get? i = some ch :=
      List.max?_mem (fun x y => max_choice x y) hmax
    rw [List.mem_filter] at hm
    have h1 := List.mem_range.1 hm.1
    have h2 := of_decide_eq_true hm.2
    refine ⟨by omega, by exact_mod_cast h1, ?_⟩
    have h3 := h2.1
    omega

/-- rfind over an empty adjusted range fails. -/
theorem pyRfind_none (s : List Char) (ch : Char) (a b : ℤ)
    (h : pyAdjust s.length b ≤ pyAdjust s.length a) : pyRfind s ch a b = -1 := by
  simp only [pyRfind]
  have hnil : ((List.range (pyAdjust s.length b)).filter
      fun i => pyAdjust s.length a ≤ i ∧ s.get? i = some ch) = [] := by
    rw [List.filter_eq_nil_iff]
    intro i hi
    have := List.mem_range.1 hi
    simp only [decide_eq_true_eq, not_and]
    intro hle
    omega
  rw [hnil]
  rfl

/-- The window end is between 0 and start + chunk_size. -/
theorem chunk_window_end (text : List Char) (c : ℕ) (s : ℤ) (hs : -(c : ℤ) < s) :
    0 ≤ (chunk_window text c s).winEnd ∧ (chunk_window text c s).winEnd ≤ s + c := by
  simp only [chunk_window]
  split
  · split
    · rcases pyRfind_cases text '.' s (s + c) with h | ⟨h1, h2, _⟩
      · rw [h]
        omega
      · have hb : (pyAdjust text.length (s + c) : ℤ) ≤ s + c :=
          pyAdjust_le_self _ _ (by omega)
        omega
    · omega
  · omega

/-- Either the window ended exactly at start + chunk_size, or the window lay
strictly inside the text. -/
theorem chunk_window_end_cases (text : List Char) (c : ℕ) (s : ℤ) :
    (chunk_window text c s).winEnd = s + c ∨ (s + (c : ℤ) < text.length) := by
  simp only [chunk_window]
  split
  · right
    assumption
  · left
    rfl

/-- A stripped slice of width at most chunk_size has at most chunk_size
characters. -/
theorem pySlice_strip_len (text : List Char) (s e : ℤ) (c : ℕ) (hs : -(c : ℤ) < s)
    (he : e ≤ s + c) (he0 : 0 ≤ e) : (pyStrip (pySlice text s e)).length ≤ c := by
  refine le_trans (pyStrip_length_le _) ?_
  rw [pySlice_length]
  have hadj : ∀ i : ℤ, pyAdjust text.length i =
      if i < 0 then (text.length + i).toNat else min i.toNat text.length := fun _ => rfl
  rw [hadj e, hadj s]
  split_ifs <;> omega

/-- C4's per-chunk size bound, at the window level. -/
theorem chunk_window_len (text : List Char) (c : ℕ) (s : ℤ) (hs : -(c : ℤ) < s) :
    (chunk_window text c s).chunk.length ≤ c := by
  have hend := chunk_window_end text c s hs
  have : (chunk_window text c s).chunk =
      pyStrip (pySlice text s (chunk_window text c s).winEnd) := rfl
  rw [this]
  exact pySlice_strip_len text s _ c hs hend.2 hend.1

/-- A window scanned from a negative start, in a text longer than
chunk_size, strips to the empty chunk (the negative index wraps to the far
end of the text and the slice is empty). -/
theorem chunk_window_neg_start (text : List Char) (c : ℕ) (s : ℤ)
    (hs : s < 0) (hns : -(c : ℤ) < s) (hlen : (c : ℤ) < text.length) :
    (chunk_window text c s).chunk = [] := by
  have hempty : ∀ e : ℤ, e ≤ s + c → 0 ≤ e → pySlice text s e = [] := by
    intro e he he0
    have hlen0 : (pySlice text s e).length = 0 := by
      rw [pySlice_length]
      have hadj : ∀ i : ℤ, pyAdjust text.length i =
          if i < 0 then (text.length + i).toNat else min i.toNat text.length :=
        fun _ => rfl
      rw [hadj e, hadj s]
      split_ifs <;> omega
    exact List.length_eq_zero.1 hlen0
  have hch : (chunk_window text c s).chunk =
      pyStrip (pySlice text s (chunk_window text c s).winEnd) := rfl
  have hend := chunk_window_end text c s hns
  rw [hch, hempty _ hend.2 hend.1]
  rfl

/-- Loop invariant package for the while-loop of _split_text_into_chunks:
new windows accumulate at the tail and chain with step end - overlap, each
window is the one computed at its own start, the final start comes from the
last window, starts never drop below -overlap, and if no window's stripped
chunk was empty then every start is nonnegative. -/
theorem split_chunks_loop_spec (text : List Char) (c o : ℕ) (ho : 0 < o)
    (hoc : o < c) :
    ∀ (fuel : ℕ) (s : ℤ) (wins : List ChunkWindow) (chunks : List (List Char))
      (W : List ChunkWindow) (C : List (List Char)) (F : ℤ),
      split_chunks_loop text c o fuel s wins chunks = some (W, C, F) →
      ∃ nw, W = wins ++ nw ∧
        C = chunks ++ (nw.filter fun w => ¬ w.chunk = []).map (fun w => w.chunk) ∧
        ChainedFrom o s nw ∧
        (∀ w ∈ nw, w = chunk_window text c w.winStart) ∧
        (nw = [] → F = s) ∧
        (nw ≠ [] → ∃ w ∈ nw, F = w.winEnd - o) ∧
        (-(o : ℤ) ≤ s → ∀ w ∈ nw, -(o : ℤ) ≤ w.winStart) ∧
        (0 ≤ s → (∀ w ∈ nw, ¬ w.chunk = []) → ∀ w ∈ nw, 0 ≤ w.winStart) := by
  intro fuel
  induction fuel with
  | zero =>
    intro s wins chunks W C F h
    exact absurd h (by simp [split_chunks_loop])
  | succ n ih =>
    intro s wins chunks W C F h
    simp only [split_chunks_loop] at h
    by_cases hsl : s < (text.length : ℤ)
    · rw [if_pos hsl] at h
      by_cases hbrk : (text.length : ℤ) ≤ (chunk_window text c s).winEnd - o ∨
          ((if (chunk_window text c s).chunk = [] then chunks
            else chunks ++ [(chunk_window text c s).chunk]).length > 1000)
      · rw [if_pos hbrk] at h
        rw [Option.some.injEq, Prod.mk.injEq, Prod.mk.injEq] at h
        obtain ⟨hW, hC, hF⟩ := h
        refine ⟨[chunk_window text c s], hW.symm, ?_, ⟨rfl, trivial⟩, ?_, ?_, ?_, ?_, ?_⟩
        · rw [← hC]
          by_cases hck : (chunk_window text c s).chunk = []
          · simp [hck]
          · simp [hck]
        · intro w hw
          rw [List.mem_singleton] at hw
          rw [hw]
          rfl
        · intro habs
          exact absurd habs (by simp)
        · intro _
          exact ⟨chunk_window text c s, List.mem_singleton_self _, hF.symm⟩
        · intro hso w hw
          rw [List.mem_singleton] at hw
          rw [hw]
          exact hso
        · intro hs0 _ w hw
          rw [List.mem_singleton] at hw
          rw [hw]
          exact hs0
      · rw [if_neg hbrk] at h
        obtain ⟨nw', hW, hC, hch, hcw, hFnil, hFcons, hneg, hnonneg⟩ :=
          ih ((chunk_window text c s).winEnd - o) (wins ++ [chunk_window text c s])
            (if (chunk_window text c s).chunk = [] then chunks
              else chunks ++ [(chunk_window text c s).chunk]) W C F h
        refine ⟨chunk_window text c s :: nw', ?_, ?_, ⟨rfl, hch⟩, ?_, ?_, ?_, ?_, ?_⟩
        · rw [hW, List.append_assoc]
          rfl
        · rw [hC]
          by_cases hck : (chunk_window text c s).chunk = []
          · rw [if_pos hck]
            congr 1
            rw [List.filter_cons_of_neg (by simp [hck])]
          · rw [if_neg hck]
            rw [List.filter_cons_of_pos (by simp [hck]), List.map_cons,
              List.append_assoc]
            rfl
        · intro w hw
          rcases List.mem_cons.1 hw with h1 | h1
          · rw [h1]
            rfl
          · exact hcw w h1
        · intro habs
          exact absurd habs (by simp)
        · intro _
          rcases List.eq_nil_or_concat nw' with h1 | ⟨l2, a2, h1⟩
          · exact ⟨chunk_window text c s, List.mem_cons_self _ _, hFnil h1⟩
          · obtain ⟨w', hw', hFw⟩ := hFcons (by
              rw [h1]
              simp)
            exact ⟨w', List.mem_cons_of_mem _ hw', hFw⟩
        · intro hso w hw
          have hend := chunk_window_end text c s (by omega)
          rcases List.mem_cons.1 hw with h1 | h1
          · rw [h1]
            exact hso
          · exact hneg (by omega) w h1
        · intro hs0 hall w hw
          have hend := chunk_window_end text c s (by omega)
          rcases List.mem_cons.1 hw with h1 | h1
          · rw [h1]
            exact hs0
          · have hs' : 0 ≤ (chunk_window text c s).winEnd - o := by
              by_contra hs'
              push_neg at hs'
              rcases List.eq_nil_or_concat nw' with h2 | _
              · rw [h2] at h1
                exact absurd h1 (List.not_mem_nil w)
              · have hw2 : ∃ w2 rest, nw' = w2 :: rest := by
                  rcases nw' with _ | ⟨w2, rest⟩
                  · simp at h1
                  · exact ⟨w2, rest, rfl⟩
                obtain ⟨w2, rest, h2⟩ := hw2
                rw [h2] at hch
                have hw2start : w2.winStart = (chunk_window text c s).winEnd - o :=
                  hch.1
                have hw2win : w2 = chunk_window text c w2.winStart :=
                  hcw w2 (by rw [h2]; exact List.mem_cons_self _ _)
                rcases chunk_window_end_cases text c s with hcase | hcase
                · omega
                · have hclen : (c : ℤ) < text.length := by omega
                  have hempty := chunk_window_neg_start text c
                    ((chunk_window text c s).winEnd - o)
                    (by omega) (by omega) hclen
                  have : w2.chunk = [] := by
                    rw [hw2win, hw2start]
                    exact hempty
                  exact absurd this (hall w2 (by
                    rw [h2]
                    exact List.mem_cons_of_mem _ (List.mem_cons_self _ _)))
            exact hnonneg hs'
              (fun w' hw' => hall w' (List.mem_cons_of_mem _ hw')) w h1
    · rw [if_neg hsl] at h
      rw [Option.some.injEq, Prod.mk.injEq, Prod.mk.injEq] at h
      obtain ⟨hW, hC, hF⟩ := h
      refine ⟨[], by rw [← hW, List.append_nil], by rw [← hC]; simp, trivial,
        by intro w hw; exact absurd hw (List.not_mem_nil w), fun _ => hF.symm,
        by intro habs; exact absurd rfl habs, ?_, ?_⟩
      · intro _ w hw
        exact absurd hw (List.not_mem_nil w)
      · intro _ _ w hw
        exact absurd hw (List.not_mem_nil w)

/-- Chained windows cover everything from the chain's origin up to any
element's end. -/
theorem chained_cover (o : ℕ) :
    ∀ (ws : List ChunkWindow) (s k : ℤ),
      ChainedFrom o s ws → s ≤ k → (∃ w ∈ ws, k < w.winEnd) →
      ∃ w ∈ ws, w.winStart ≤ k ∧ k < w.winEnd := by
  intro ws
  induction ws with
  | nil =>
    intro s k _ _ hex
    obtain ⟨w, hw, _⟩ := hex
    exact absurd hw (List.not_mem_nil w)
  | cons w rest ih =>
    intro s k hch hsk hex
    by_cases hk : k < w.winEnd
    · refine ⟨w, List.mem_cons_self _ _, ?_, hk⟩
      rw [hch.1]
      exact hsk
    · push_neg at hk
      obtain ⟨w', hw', hkw'⟩ := hex
      rcases List.mem_cons.1 hw' with h1 | h1
      · rw [h1] at hkw'
        omega
      · obtain ⟨w'', h2, h3, h4⟩ := ih (w.winEnd - o) k hch.2 (by omega) ⟨w', h1, hkw'⟩
        exact ⟨w'', List.mem_cons_of_mem _ h2, h3, h4⟩

/-- C4 (amended): for 0 < chunk_overlap < chunk_size, on any terminating run
of _split_text_into_chunks the returned chunks are the nonempty stripped
window contents in scan order and each has at most chunk_size characters;
the scanned windows chain (each window starts chunk_overlap before the
previous window's end, starting from 0); and provided no window's stripped
chunk was empty (none was silently dropped) and the loop exited because
start reached the end of the text (rather than through the 1000-chunk cap),
the windows of the returned chunks jointly cover the whole text. -/
theorem split_text_into_chunks_amended (text : List Char) (c o fuel : ℕ)
    (W : List ChunkWindow) (C : List (List Char)) (F : ℤ)
    (ho : 0 < o) (hoc : o < c)
    (hrun : split_chunks_loop text c o fuel 0 [] [] = some (W, C, F)) :
    split_text_into_chunks text c o fuel = some C ∧
    C = (W.filter fun w => ¬ w.chunk = []).map (fun w => w.chunk) ∧
    (∀ ch ∈ C, ch.length ≤ c) ∧
    ChainedFrom o 0 W ∧
    ((∀ w ∈ W, ¬ w.chunk = []) → (text.length : ℤ) ≤ F →
      ∀ k : ℕ, k < text.length →
        ∃ w ∈ W, 0 ≤ w.winStart ∧ w.winStart ≤ (k : ℤ) ∧ (k : ℤ) < w.winEnd) := by
  obtain ⟨nw, hW, hC, hch, hcw, hFnil, hFcons, hneg, hnonneg⟩ :=
    split_chunks_loop_spec text c o ho hoc fuel 0 [] [] W C F hrun
  have hWnw : nw = W := by
    rw [hW]
    rfl
  subst hWnw
  have hCW : C = (nw.filter fun w => ¬ w.chunk = []).map (fun w => w.chunk) := by
    rw [hC]
    rfl
  refine ⟨?_, hCW, ?_, hch, ?_⟩
  · rw [split_text_into_chunks, hrun]
    rfl
  · intro ch hmem
    rw [hCW] at hmem
    obtain ⟨w, hwf, hwc⟩ := List.mem_map.1 hmem
    have hwW : w ∈ nw := List.mem_of_mem_filter hwf
    have hwdef := hcw w hwW
    have hwneg := hneg (by omega) w hwW
    rw [← hwc]
    calc w.chunk.length = (chunk_window text c w.winStart).chunk.length := by
          rw [← hwdef]
      _ ≤ c := chunk_window_len text c w.winStart (by omega)
  · intro hall hF k hk
    have hkz : (k : ℤ) < (text.length : ℤ) := by exact_mod_cast hk
    by_cases hWn : nw = []
    · have hF0 := hFnil hWn
      omega
    · obtain ⟨wl, hwl, hFwl⟩ := hFcons hWn
      obtain ⟨w, hwW, hle, hlt⟩ := chained_cover o nw 0 k hch
        (by exact_mod_cast Nat.zero_le k) ⟨wl, hwl, by omega⟩
      exact ⟨w, hwW, hnonneg (le_refl 0) hall w hwW, hle, hlt⟩

/-- Witness for split_text_into_chunks_amended at a concrete terminating
run. -/
theorem split_text_into_chunks_amended_witness :
    split_text_into_chunks (("ab").toList) 2 1 10 =
      some [("ab").toList, ("b").toList] ∧
    ([("ab").toList, ("b").toList] : List (List Char)) =
      (([{ winStart := 0, winEnd := 2, chunk := ("ab").toList },
         { winStart := 1, winEnd := 3, chunk := ("b").toList }] :
        List ChunkWindow).filter fun w => ¬ w.chunk = []).map (fun w => w.chunk) ∧
    (∀ ch ∈ ([("ab").toList, ("b").toList] : List (List Char)), ch.length ≤ 2) ∧
    ChainedFrom 1 0
      ([{ winStart := 0, winEnd := 2, chunk := ("ab").toList },
        { winStart := 1, winEnd := 3, chunk := ("b").toList }] : List ChunkWindow) ∧
    ((∀ w ∈ ([{ winStart := 0, winEnd := 2, chunk := ("ab").toList },
              { winStart := 1, winEnd := 3, chunk := ("b").toList }] :
        List ChunkWindow), ¬ w.chunk = []) →
      ((("ab").toList.length : ℤ)) ≤ 2 →
      ∀ k : ℕ, k < ("ab").toList.length →
        ∃ w ∈ ([{ winStart := 0, winEnd := 2, chunk := ("ab").toList },
                { winStart := 1, winEnd := 3, chunk := ("b").toList }] :
          List ChunkWindow), 0 ≤ w.winStart ∧ w.winStart ≤ (k : ℤ) ∧ (k : ℤ) < w.winEnd) :=
  split_text_into_chunks_amended (("ab").toList) 2 1 10
    [{ winStart := 0, winEnd := 2, chunk := ("ab").toList },
     { winStart := 1, winEnd := 3, chunk := ("b").toList }]
    [("ab").toList, ("b").toList] 2 (by decide) (by decide)
    (by rw [split_chunks_loop_eqI]; decide)
